import Mathlib

/-
Verification development for the ollama-route-bouncer-express repository.

The repository exposes an Ollama/OpenAI-style chat-completion wire protocol and
translates it into the streaming protocols of several upstream chat providers
(Qwen via HTTP SSE in ollama-mock.js, DeepSeek via browser instrumentation in
next.config.js and ollama-mock.js, the Vercel AI gateway in vercel.js).

The embedding below models raw text as lists of characters, SSE payload parsing
as a small executable JSON parser mirroring JavaScript JSON.parse on the
payloads in scope, and each streaming handler as an explicit state machine that
consumes upstream events and produces the list of outward writes.  Outward
chat-completion chunks are modelled by their deterministic fields (the delta
role, the delta content and the finish_reason); the generated uuid, the
creation timestamp and the echoed model name carried by every chunk are
request-time nondeterminism that no property below depends on.
-/

/-- Characters of a string literal; raw wire text is modelled as a list of characters. -/
def lit (s : String) : List Char := s.data

/-- Whitespace recognised by the trimming steps of the handlers. -/
def isWsChar (c : Char) : Bool := c = ' ' || c = '\t' || c = '\n' || c = '\r'

/-- JavaScript String.prototype.trim on the character-list model. -/
def jsTrim (s : List Char) : List Char :=
  ((s.dropWhile isWsChar).reverse.dropWhile isWsChar).reverse

/-- Splitting a text on newline characters, as performed by buffer.split("\n")
followed by lines.pop() in the streaming handlers: the first component is the
list of completed (newline-terminated) lines and the second component is the
trailing text after the last newline, which the handler keeps as its buffer. -/
def splitLines : List Char → List (List Char) × List Char
  | [] => ([], [])
  | c :: rest =>
    match splitLines rest with
    | (ls, part) =>
      if c = '\n' then ([] :: ls, part)
      else
        match ls with
        | [] => ([], c :: part)
        | h :: t => ((c :: h) :: t, part)

/-- One transport-chunk step of the Frame Decoder of ollama-mock.js
(qwenRes.body.on("data")): the pending buffer is prepended to the incoming
chunk, the result is split on newlines, the completed lines are emitted and the
unterminated remainder becomes the new buffer.  The argument here is the
already-decoded text chunkStr; byteFeed below composes this step with the
per-Buffer chunk.toString() UTF-8 decode of line 616. -/
def feedChunk (buf chunk : List Char) : List (List Char) × List Char :=
  splitLines (buf ++ chunk)

/-- The full line list of text.split("\n") (including the final, possibly
empty, piece), as used by the handlers that process a complete response body
at once. -/
def splitAll (s : List Char) : List (List Char) := (splitLines s).1 ++ [(splitLines s).2]

/-- JSON values, the shape JSON.parse produces for the provider payloads.
Numbers are kept as their lexeme since no handler inspects numeric values
beyond truthiness. -/
inductive Json where
  | null : Json
  | bool : Bool → Json
  | num : List Char → Json
  | str : List Char → Json
  | arr : List Json → Json
  | obj : List (List Char × Json) → Json

/-- A JSON number lexeme denotes zero exactly when every mantissa digit is 0. -/
def numIsZeroLex (lex : List Char) : Bool :=
  ((lex.takeWhile (fun c => !(c = 'e' || c = 'E'))).filter Char.isDigit).all (· = '0')

/-- JavaScript truthiness of a JSON value. -/
def jsonTruthy : Json → Bool
  | .null => false
  | .bool b => b
  | .num lex => !numIsZeroLex lex
  | .str s => !s.isEmpty
  | .arr _ => true
  | .obj _ => true

/-- JavaScript truthiness of a possibly-absent (undefined) value. -/
def optTruthy : Option Json → Bool
  | none => false
  | some j => jsonTruthy j

/-- JavaScript property access j.k: a field of an object, undefined (none) on
every other value.  Property access on null or undefined, which throws in
JavaScript, is handled explicitly at the call sites that can reach it. -/
def Json.getField : Json → List Char → Option Json
  | .obj kvs, k => (kvs.find? (fun p => p.1 == k)).map (fun p => p.2)
  | _, _ => none

/-- JavaScript strict equality of a possibly-absent value with a string literal. -/
def isStrEq (o : Option Json) (s : List Char) : Bool :=
  match o with
  | some (.str t) => t == s
  | _ => false

/-- Value of a hexadecimal digit, used for \u escapes. -/
def hexDigitVal (c : Char) : Option Nat :=
  if '0' ≤ c ∧ c ≤ '9' then some (c.toNat - '0'.toNat)
  else if 'a' ≤ c ∧ c ≤ 'f' then some (c.toNat - 'a'.toNat + 10)
  else if 'A' ≤ c ∧ c ≤ 'F' then some (c.toNat - 'A'.toNat + 10)
  else none

/-- Single-character JSON string escapes. -/
def escChar (c : Char) : Option Char :=
  if c = '"' then some '"'
  else if c = '\\' then some '\\'
  else if c = '/' then some '/'
  else if c = 'b' then some (Char.ofNat 8)
  else if c = 'f' then some (Char.ofNat 12)
  else if c = 'n' then some '\n'
  else if c = 'r' then some '\r'
  else if c = 't' then some '\t'
  else none

/-- Body of a JSON string after the opening quote: returns the decoded
characters and the remainder after the closing quote. -/
def parseStrBody : List Char → Option (List Char × List Char)
  | [] => none
  | c :: rest =>
    if c = '"' then some ([], rest)
    else if c = '\\' then
      match rest with
      | 'u' :: h1 :: h2 :: h3 :: h4 :: rest2 =>
        match hexDigitVal h1, hexDigitVal h2, hexDigitVal h3, hexDigitVal h4 with
        | some a, some b, some d, some e =>
          (parseStrBody rest2).map
            (fun p => (Char.ofNat (((a * 16 + b) * 16 + d) * 16 + e) :: p.1, p.2))
        | _, _, _, _ => none
      | e :: rest2 =>
        match escChar e with
        | some d => (parseStrBody rest2).map (fun p => (d :: p.1, p.2))
        | none => none
      | [] => none
    else (parseStrBody rest).map (fun p => (c :: p.1, p.2))

/-- Longest digit run at the front of a text and the remainder. -/
def spanDigits (s : List Char) : List Char × List Char :=
  (s.takeWhile Char.isDigit, s.dropWhile Char.isDigit)

/-- JSON number lexeme at the front of a text: optional minus, integer part
without superfluous leading zeros, optional fraction, optional exponent. -/
def parseNumber (s : List Char) : Option (List Char × List Char) :=
  let signed : List Char × List Char :=
    match s with
    | '-' :: r => (['-'], r)
    | _ => ([], s)
  let ipSpan := spanDigits signed.2
  if ipSpan.1.isEmpty then none
  else if ipSpan.1.length > 1 && ipSpan.1.head? == some '0' then none
  else
    let fracSpan : List Char × List Char :=
      match ipSpan.2 with
      | '.' :: r =>
        let d := spanDigits r
        if d.1.isEmpty then ([], ipSpan.2) else ('.' :: d.1, d.2)
      | _ => ([], ipSpan.2)
    let expSpan : List Char × List Char :=
      match fracSpan.2 with
      | c :: r =>
        if c = 'e' || c = 'E' then
          let sgn : List Char × List Char :=
            match r with
            | '+' :: rr => (['+'], rr)
            | '-' :: rr => (['-'], rr)
            | _ => ([], r)
          let d := spanDigits sgn.2
          if d.1.isEmpty then ([], fracSpan.2) else (c :: (sgn.1 ++ d.1), d.2)
        else ([], fracSpan.2)
      | [] => ([], fracSpan.2)
    some (signed.1 ++ ipSpan.1 ++ fracSpan.1 ++ expSpan.1, expSpan.2)

mutual

/-- JSON value at the front of a text, fuel-indexed recursive descent. -/
def parseVal : Nat → List Char → Option (Json × List Char)
  | 0, _ => none
  | fuel + 1, s =>
    match s.dropWhile isWsChar with
    | [] => none
    | c :: rest =>
      if c = '\x7b' then
        match parseObjItems fuel rest with
        | some (kvs, r) => some (Json.obj kvs, r)
        | none => none
      else if c = '[' then
        match parseArrItems fuel rest with
        | some (items, r) => some (Json.arr items, r)
        | none => none
      else if c = '"' then
        match parseStrBody rest with
        | some (t, r) => some (Json.str t, r)
        | none => none
      else if c = 't' then
        match rest with
        | 'r' :: 'u' :: 'e' :: r => some (Json.bool true, r)
        | _ => none
      else if c = 'f' then
        match rest with
        | 'a' :: 'l' :: 's' :: 'e' :: r => some (Json.bool false, r)
        | _ => none
      else if c = 'n' then
        match rest with
        | 'u' :: 'l' :: 'l' :: r => some (Json.null, r)
        | _ => none
      else if c = '-' || c.isDigit then
        match parseNumber (c :: rest) with
        | some (lex, r) => some (Json.num lex, r)
        | none => none
      else none

/-- Items of a JSON array after the opening bracket. -/
def parseArrItems : Nat → List Char → Option (List Json × List Char)
  | 0, _ => none
  | fuel + 1, s =>
    match s.dropWhile isWsChar with
    | ']' :: r => some ([], r)
    | s' =>
      match parseVal fuel s' with
      | none => none
      | some (j, r1) =>
        match parseArrRest fuel r1 with
        | some (items, r2) => some (j :: items, r2)
        | none => none

/-- Continuation of a JSON array after one item: a comma and another item, or
the closing bracket. -/
def parseArrRest : Nat → List Char → Option (List Json × List Char)
  | 0, _ => none
  | fuel + 1, s =>
    match s.dropWhile isWsChar with
    | ']' :: r => some ([], r)
    | ',' :: r =>
      match parseVal fuel r with
      | none => none
      | some (j, r1) =>
        match parseArrRest fuel r1 with
        | some (items, r2) => some (j :: items, r2)
        | none => none
    | _ => none

/-- Members of a JSON object after the opening brace. -/
def parseObjItems : Nat → List Char → Option (List (List Char × Json) × List Char)
  | 0, _ => none
  | fuel + 1, s =>
    match s.dropWhile isWsChar with
    | '\x7d' :: r => some ([], r)
    | '"' :: rest =>
      match parseStrBody rest with
      | none => none
      | some (k, r1) =>
        match r1.dropWhile isWsChar with
        | ':' :: r2 =>
          match parseVal fuel r2 with
          | none => none
          | some (v, r3) =>
            match parseObjRest fuel r3 with
            | some (kvs, r4) => some ((k, v) :: kvs, r4)
            | none => none
        | _ => none
    | _ => none

/-- Continuation of a JSON object after one member: a comma and another member,
or the closing brace. -/
def parseObjRest : Nat → List Char → Option (List (List Char × Json) × List Char)
  | 0, _ => none
  | fuel + 1, s =>
    match s.dropWhile isWsChar with
    | '\x7d' :: r => some ([], r)
    | ',' :: r =>
      match r.dropWhile isWsChar with
      | '"' :: rest =>
        match parseStrBody rest with
        | none => none
        | some (k, r1) =>
          match r1.dropWhile isWsChar with
          | ':' :: r2 =>
            match parseVal fuel r2 with
            | none => none
            | some (v, r3) =>
              match parseObjRest fuel r3 with
              | some (kvs, r4) => some ((k, v) :: kvs, r4)
              | none => none
          | _ => none
      | _ => none
    | _ => none

end

/-- JavaScript JSON.parse on the character-list model: a complete JSON value
with nothing but whitespace around it, or failure. -/
def Json.parse (s : List Char) : Option Json :=
  match parseVal (s.length + 2) s with
  | some (j, r) => if (r.dropWhile isWsChar).isEmpty then some j else none
  | none => none

/-- Outward writes on the caller-facing stream.  A chunk records the delta role
field (absent when the handler writes undefined, which JSON.stringify drops),
the delta content field, and the finish_reason.  done is the terminal sentinel
frame data: [DONE], raw is a verbatim forwarded line, close is res.end(). -/
inductive Out where
  | chunk (role : Option Json) (content : Option Json) (finish : Option (List Char))
  | done : Out
  | raw (text : List Char)
  | close : Out

/-- Finish_reason carried by an outward write. -/
def outFinish : Out → Option (List Char)
  | .chunk _ _ f => f
  | _ => none

/-- Role field carried by an outward write. -/
def outRole : Out → Option Json
  | .chunk r _ _ => r
  | _ => none

/-- Whether a write is a chat-completion chunk with finish_reason "stop". -/
def isStopChunk : Out → Bool
  | .chunk _ _ (some f) => f == lit "stop"
  | _ => false

/-- Whether a write is a chunk that carries (truthy, hence nonempty) text. -/
def outCarriesText : Out → Bool
  | .chunk _ (some c) _ => jsonTruthy c
  | _ => false

/-- The text-carrying chunks of an outward stream, in order. -/
def textChunks (l : List Out) : List Out := l.filter outCarriesText

/-- The JSON string "assistant" placed in role fields. -/
def assistantJson : Json := Json.str (lit "assistant")

/-- Result of a POST /v1/chat/completions request: an error reported as a plain
HTTP JSON response (status, error tag, details), a non-streaming completion
body, or an SSE stream of outward writes. -/
inductive HttpResult where
  | jsonError (status : Nat) (error : List Char) (details : List Char)
  | jsonCompletion (content : List Char)
  | stream (out : List Out)

/-- Whether a request result is a stream (as opposed to a plain JSON reply). -/
def isStreamResult : HttpResult → Bool
  | .stream _ => true
  | _ => false

/-
Qwen streaming handler of ollama-mock.js, app.post("/v1/chat/completions"),
lines 606 to 758.
-/

/-- Normalizer state of the Qwen streaming handler: the thinking-phase flag and
the accumulated thinking content (the latter is written but never read by the
handler; it is kept for fidelity). -/
structure QwenState where
  isInThinkingPhase : Bool
  thinkingContent : List Json

/-- State at the start of a Qwen stream. -/
def initQwenState : QwenState := { isInThinkingPhase := false, thinkingContent := [] }

/-- The thinking header chunk: role assistant, content the opening delimiter. -/
def thinkingHeaderOut : Out :=
  Out.chunk (some assistantJson) (some (Json.str (lit "\n<thinking>\n"))) none

/-- The thinking footer chunk: the closing delimiter. -/
def thinkingFooterOut : Out :=
  Out.chunk none (some (Json.str (lit "\n</thinking>\n\n"))) none

/-- Role placed in an answer-phase chunk: delta.role when truthy, else "assistant". -/
def roleVal (r : Option Json) : Json :=
  match r with
  | some j => if jsonTruthy j then j else assistantJson
  | none => assistantJson

/-- Content placed in an answer-phase chunk: delta.content when truthy, else "". -/
def contentVal (c : Option Json) : Json :=
  match c with
  | some j => if jsonTruthy j then j else Json.str []
  | none => Json.str []

/-- Chunks emitted for the content of one thinking-phase delta: one chunk when
delta.content is truthy, nothing otherwise. -/
def thinkContentOut (c : Option Json) : List Out :=
  match c with
  | some j => if jsonTruthy j then [Out.chunk none (some j) none] else []
  | none => []

/-- The answer-phase chunk built from a delta's role, content and status. -/
def answerOut (r c : Option Json) (fin : Bool) : Out :=
  Out.chunk (some (roleVal r)) (some (contentVal c))
    (if fin then some (lit "stop") else none)

/-- One normalized delta step of the Qwen handler (lines 634 to 723): the
thinking branch emits the header on entering the phase, a content chunk for
truthy content and the footer when delta.status is "finished"; the answer
branch (phase "answer" or falsy) emits one chunk with role, content and
finish_reason; any other phase emits nothing. -/
def processQwenDelta (st : QwenState) (delta : Json) : QwenState × List Out :=
  if isStrEq (delta.getField (lit "phase")) (lit "think") then
    let headerOut : List Out := if st.isInThinkingPhase then [] else [thinkingHeaderOut]
    let stepContent : QwenState × List Out :=
      match delta.getField (lit "content") with
      | some c =>
        if jsonTruthy c then
          ({ isInThinkingPhase := true, thinkingContent := st.thinkingContent ++ [c] },
           [Out.chunk none (some c) none])
        else ({ st with isInThinkingPhase := true }, [])
      | none => ({ st with isInThinkingPhase := true }, [])
    let finished := isStrEq (delta.getField (lit "status")) (lit "finished")
    ({ stepContent.1 with isInThinkingPhase := !finished },
     headerOut ++ stepContent.2 ++ (if finished then [thinkingFooterOut] else []))
  else if isStrEq (delta.getField (lit "phase")) (lit "answer")
      || !optTruthy (delta.getField (lit "phase")) then
    (st, [answerOut (delta.getField (lit "role")) (delta.getField (lit "content"))
            (isStrEq (delta.getField (lit "status")) (lit "finished"))])
  else (st, [])

/-- Outcome of evaluating json.choices[0].delta on a parsed payload: a thrown
TypeError (choices[0] is undefined or null), a truthy delta, or a falsy or
absent one. -/
inductive DeltaAccess where
  | thrown : DeltaAccess
  | noDelta : DeltaAccess
  | delta (d : Json) : DeltaAccess

/-- Evaluation of the guard json && json.choices && Array.isArray(json.choices)
&& json.choices[0].delta of the Qwen handler, including the TypeError thrown by
the [0].delta access when the array is empty or its head is null. -/
def getDeltaOfLine (j : Json) : DeltaAccess :=
  match j.getField (lit "choices") with
  | some (.arr items) =>
    match items.head? with
    | none => .thrown
    | some Json.null => .thrown
    | some c0 =>
      match c0.getField (lit "delta") with
      | some d => if jsonTruthy d then .delta d else .noDelta
      | none => .noDelta
  | _ => .noDelta

/-- One decoded line of the Qwen handler (lines 621 to 734): blank lines and
lines without the data: envelope are skipped; a payload that fails JSON.parse,
or a payload whose [0].delta access throws, lands in the catch, which forwards
the raw line with a newline; a truthy delta is normalized; otherwise the
payload is forwarded as the terminal sentinel exactly when it is [DONE]. -/
def processQwenLine (st : QwenState) (line : List Char) : QwenState × List Out :=
  let t := jsTrim line
  if t.isEmpty || !((lit "data:").isPrefixOf t) then (st, [])
  else
    let jsonStr := jsTrim (t.drop 5)
    match Json.parse jsonStr with
    | none => (st, [Out.raw (line ++ lit "\n")])
    | some j =>
      match getDeltaOfLine j with
      | .thrown => (st, [Out.raw (line ++ lit "\n")])
      | .delta d => processQwenDelta st d
      | .noDelta => if jsonStr == lit "[DONE]" then (st, [Out.done]) else (st, [])

/-- The Qwen handler's per-line loop over the completed lines of one transport
chunk. -/
def processQwenLines (st : QwenState) : List (List Char) → QwenState × List Out
  | [] => (st, [])
  | l :: ls =>
    match processQwenLine st l with
    | (s1, o1) =>
      match processQwenLines s1 ls with
      | (s2, o2) => (s2, o1 ++ o2)

/-- The Qwen handler's normalization of a list of deltas (the decoded provider
events), in arrival order. -/
def processQwenDeltas (st : QwenState) : List Json → QwenState × List Out
  | [] => (st, [])
  | d :: ds =>
    match processQwenDelta st d with
    | (s1, o1) =>
      match processQwenDeltas s1 ds with
      | (s2, o2) => (s2, o1 ++ o2)

/-- Events delivered by the upstream response body: a transport data chunk, the
end event, or the error event. -/
inductive UpEvt where
  | data (s : List Char)
  | endEvt : UpEvt
  | errEvt : UpEvt

/-- Full stream state of the Qwen handler: the line reassembly buffer and the
normalizer state. -/
structure QwenStream where
  buffer : List Char
  st : QwenState

/-- One upstream body event of the Qwen handler.  A data event reattaches the
buffer, splits on newlines, processes the completed lines and keeps the
unterminated remainder (lines 615 to 735).  The end event
forwards the leftover buffer verbatim when it is a data: line whose payload
parses, then closes (lines 737 to 746).  The error event only closes the
response (lines 748 to 751). -/
def processQwenEvt (ss : QwenStream) : UpEvt → QwenStream × List Out
  | .data chunk =>
    match splitLines (ss.buffer ++ chunk) with
    | (ls, buf) =>
      match processQwenLines ss.st ls with
      | (st2, out) => ({ buffer := buf, st := st2 }, out)
  | .endEvt =>
    let flushed : List Out :=
      if (lit "data:").isPrefixOf (jsTrim ss.buffer) then
        match Json.parse (jsTrim ((jsTrim ss.buffer).drop 5)) with
        | some _ => [Out.raw ss.buffer]
        | none => []
      else []
    (ss, flushed ++ [Out.close])
  | .errEvt => (ss, [Out.close])

/-- The Qwen handler's stream fold from a given stream state. -/
def runQwenFrom (ss : QwenStream) : List UpEvt → QwenStream × List Out
  | [] => (ss, [])
  | e :: es =>
    match processQwenEvt ss e with
    | (s1, o1) =>
      match runQwenFrom s1 es with
      | (s2, o2) => (s2, o1 ++ o2)

/-- Outward writes of a whole accepted Qwen stream. -/
def runQwen (evts : List UpEvt) : List Out :=
  (runQwenFrom { buffer := [], st := initQwenState } evts).2

/-- Top level of the Qwen handler after the upstream fetch: a non-OK upstream
response is answered with an HTTP 500 JSON error carrying the upstream body
(lines 600 to 604); an OK response is streamed. -/
def handleQwenCompletion (upstreamOk : Bool) (upstreamBody : List Char)
    (evts : List UpEvt) : HttpResult :=
  if upstreamOk then .stream (runQwen evts)
  else .jsonError 500 (lit "Qwen failed") upstreamBody

/-
DeepSeek streaming handler of next.config.js, app.post("/v1/chat/completions"),
lines 555 to 661: dataReceivedHandler and loadingFinishedHandler.
-/

/-- Events observed by the DeepSeek streaming handler for the captured upstream
request: a Network.dataReceived delivery (the handler then reads a body text)
or the Network.loadingFinished terminal completion event. -/
inductive DsEvt where
  | data (text : List Char)
  | finished : DsEvt
deriving DecidableEq

/-- Whether a DeepSeek stream event is a data delivery. -/
def isDataEvt : DsEvt → Bool
  | .data _ => true
  | .finished => false

/-- State of the DeepSeek streaming handler: whether a chunk has been emitted
(responseStarted) and whether the outward response has been closed and the
network listeners detached. -/
structure DsState where
  responseStarted : Bool
  closed : Bool
deriving DecidableEq

/-- One line of the dataReceivedHandler (lines 592 to 619): a data: line whose
payload parses and carries a nonempty string json.v becomes one content chunk;
the role field is "assistant" on the first such chunk and undefined (dropped by
JSON.stringify) afterwards; parse failures and payloads without a string v are
ignored by the empty catch. -/
def processDsLine (started : Bool) (line : List Char) : Bool × List Out :=
  if (lit "data:").isPrefixOf (jsTrim line) then
    match Json.parse (jsTrim ((jsTrim line).drop 5)) with
    | some j =>
      match j.getField (lit "v") with
      | some (Json.str v) =>
        if !v.isEmpty then
          (true, [Out.chunk (if started then none else some assistantJson)
                    (some (Json.str v)) none])
        else (started, [])
      | _ => (started, [])
    | none => (started, [])
  else (started, [])

/-- The dataReceivedHandler's loop over the lines of one delivered body text. -/
def processDsLines (started : Bool) : List (List Char) → Bool × List Out
  | [] => (started, [])
  | l :: ls =>
    match processDsLine started l with
    | (b1, o1) =>
      match processDsLines b1 ls with
      | (b2, o2) => (b2, o1 ++ o2)

/-- One event step of the DeepSeek streaming handler.  After the handler has
closed the response (loadingFinished ran: listeners detached, request id
deleted) every further event is ignored.  A data event processes every piece of
text.split("\n").  The loadingFinished event writes the final chunk with
finish_reason "stop", then the data: [DONE] sentinel, then closes. -/
def processDsEvt (st : DsState) : DsEvt → DsState × List Out
  | .data text =>
    if st.closed then (st, [])
    else
      match processDsLines st.responseStarted (splitAll text) with
      | (b, out) => ({ st with responseStarted := b }, out)
  | .finished =>
    if st.closed then (st, [])
    else ({ st with closed := true },
          [Out.chunk none none (some (lit "stop")), Out.done, Out.close])

/-- The DeepSeek streaming handler's fold from a given state. -/
def runDsFrom (st : DsState) : List DsEvt → DsState × List Out
  | [] => (st, [])
  | e :: es =>
    match processDsEvt st e with
    | (s1, o1) =>
      match runDsFrom s1 es with
      | (s2, o2) => (s2, o1 ++ o2)

/-- Outward writes of a whole DeepSeek stream, from the fresh handler state. -/
def runDs (evts : List DsEvt) : List Out :=
  (runDsFrom { responseStarted := false, closed := false } evts).2

/-
Vercel AI gateway streaming handler of vercel.js, lines 330 to 393.
-/

/-- Outward writes of the Vercel streaming handler for a given sequence of
upstream text parts: the initial chunk (role assistant, empty content), one
content chunk per text part, the final chunk with finish_reason "stop", the
terminal sentinel, and the close. -/
def vercelStream (tokens : List (List Char)) : List Out :=
  Out.chunk (some assistantJson) (some (Json.str [])) none
    :: tokens.map (fun t => Out.chunk none (some (Json.str t)) none)
    ++ [Out.chunk none none (some (lit "stop")), Out.done, Out.close]

/-
DeepSeek non-streaming path: sendPromptToDeepSeek of next.config.js lines 369
to 485 and ollama-mock.js lines 1130 to 1246, and its caller, the
non-streaming branch of app.post("/v1/chat/completions").
-/

/-- Accumulation of one body line by the loadingFinishedHandler of
sendPromptToDeepSeek (lines 405 to 420 of next.config.js): a data: line whose
payload parses appends json.v when it is a string, and appends it a second
time when json.p is "response/content". -/
def collectVLine (acc : List Char) (line : List Char) : List Char :=
  if (lit "data:").isPrefixOf (jsTrim line) then
    match Json.parse (jsTrim ((jsTrim line).drop 5)) with
    | some j =>
      let acc1 :=
        match j.getField (lit "v") with
        | some (Json.str v) => acc ++ v
        | _ => acc
      match j.getField (lit "p"), j.getField (lit "v") with
      | some (Json.str p), some (Json.str v) =>
        if p == lit "response/content" then acc1 ++ v else acc1
      | _, _ => acc1
    | none => acc
  else acc

/-- The response text sendPromptToDeepSeek assembles from a finished upstream
body. -/
def collectV (text : List Char) : List Char := (splitAll text).foldl collectVLine []

/-- Outcome of sendPromptToDeepSeek: when the upstream terminal event arrives
within the 30 second budget its body is decoded, otherwise the 30 second timer
detaches the network listeners and rejects with "Response timeout" (lines 476
to 484 of next.config.js, lines 1238 to 1245 of ollama-mock.js).  The argument
is the terminal body, none when no terminal event arrives in time. -/
def sendPromptToDeepSeek (terminalBody : Option (List Char)) :
    Except (List Char) (List Char) :=
  match terminalBody with
  | some body => .ok (collectV body)
  | none => .error (lit "Response timeout")

/-- The non-streaming branch of the DeepSeek /v1/chat/completions handler: a
resolved prompt is answered with a completion JSON; a rejection is caught by
the handler's try/catch, which answers with an HTTP 500 JSON error carrying
the rejection message. -/
def dsNonStreamingResponse (terminalBody : Option (List Char)) : HttpResult :=
  match sendPromptToDeepSeek terminalBody with
  | .ok content => .jsonCompletion content
  | .error e => .jsonError 500 (lit "Internal proxy error") e

/-
Conversation state of ollama-mock.js, lines 406 and 494 to 547: the
conversationState Map and the per-request get-or-create and update.
-/

/-- Per-conversation state stored in the conversationState Map: the parent
message identifier and the pre-generated fid for the next message. -/
structure ConvState where
  parent_id : Option (List Char)
  nextChildFid : Option (List Char)
deriving DecidableEq

/-- The state installed for a new conversation key (lines 499 to 504): null
parent and null next-child fid. -/
def freshConvState : ConvState := { parent_id := none, nextChildFid := none }

/-- The conversationState registry, a Map from conversation key to state,
modelled as an insertion-ordered association list. -/
abbrev Registry := List (List Char × ConvState)

/-- Map.get on the registry. -/
def regLookup : Registry → List Char → Option ConvState
  | [], _ => none
  | p :: r, k => if p.1 == k then some p.2 else regLookup r k

/-- Map.set on the registry: replaces the entry for the key or appends it. -/
def regSet : Registry → List Char → ConvState → Registry
  | [], k, v => [(k, v)]
  | p :: r, k, v => if p.1 == k then (k, v) :: r else p :: regSet r k v

/-- Get-or-create of the Qwen handler (lines 499 to 505). -/
def getOrCreate (r : Registry) (k : List Char) : Registry × ConvState :=
  match regLookup r k with
  | some s => (r, s)
  | none => (regSet r k freshConvState, freshConvState)

/-- The per-request conversation-state update the Qwen handler performs (lines
546 to 547): it stores the freshly generated next-child fid; parent_id is read
into the outgoing payload but never reassigned. -/
def qwenTurnUpdate (s : ConvState) (nextChildFid : List Char) : ConvState :=
  { s with nextChildFid := some nextChildFid }

/-- Conversation-state effect of one whole request for a key: get-or-create
followed by the update with the generated fid. -/
def handleTurn (r : Registry) (k fid : List Char) : Registry :=
  match getOrCreate r k with
  | (r1, s) => regSet r1 k (qwenTurnUpdate s fid)

/-- A sequence of requests, each annotated with the wall-clock second at which
it runs.  The code keys nothing on time: the timestamp is carried only so that
eviction claims about elapsed time can be stated. -/
def applyTimedOps (r : Registry) : List (Nat × List Char × List Char) → Registry
  | [] => r
  | op :: rest => applyTimedOps (handleTurn r op.2.1 op.2.2) rest

/-- Modelled from the spec: the background sweep period (e.g. every 30
minutes) of the Session Registry contract.  The code defines no sweep. -/
def sweepPeriodSeconds : Nat := 1800

/-- Modelled from the spec: the fixed max age (e.g. 1 hour) after which the
Session Registry contract evicts an untouched session.  The code defines no
max age. -/
def sessionMaxAgeSeconds : Nat := 3600

/-
User-message extraction of the /v1/chat/completions handlers (ollama-mock.js
lines 480 to 490, next.config.js lines 537 to 546).
-/

/-- An inbound chat message: a role and an optional content string (absent
models a missing content field; the empty string is falsy in the handler's
truthiness test). -/
structure ChatMsg where
  role : List Char
  content : Option (List Char)
deriving DecidableEq

/-- The prompt forwarded upstream: the messages array is copied, reversed and
searched for the first entry with role "user" (hence the last user message);
its content replaces the default "Hello" only when truthy. -/
def extractUserMessage (messages : Option (List ChatMsg)) : List Char :=
  match messages with
  | none => lit "Hello"
  | some ms =>
    match ms.reverse.find? (fun m => m.role == lit "user") with
    | some m =>
      match m.content with
      | some c => if !c.isEmpty then c else lit "Hello"
      | none => lit "Hello"
    | none => lit "Hello"

/-- Stated from the claim wording, for comparison with the code: the content of
the last element of the messages array whose role is "user". -/
def lastUserContent (ms : List ChatMsg) : Option (List Char) :=
  (ms.reverse.find? (fun m => m.role == lit "user")).bind (fun m => m.content)

/-
Delta constructors used to quantify over well-formed provider events.
-/

/-- A thinking-phase provider delta with the given optional content and, when
fin is set, the status "finished" phase-transition marker. -/
def thinkDelta (content : Option Json) (fin : Bool) : Json :=
  Json.obj ([(lit "phase", Json.str (lit "think"))]
    ++ (match content with | some c => [(lit "content", c)] | none => [])
    ++ (if fin then [(lit "status", Json.str (lit "finished"))] else []))

/-- An answer-phase provider delta with the given optional role, optional
content and, when fin is set, the status "finished" completion marker. -/
def answerDelta (role content : Option Json) (fin : Bool) : Json :=
  Json.obj ([(lit "phase", Json.str (lit "answer"))]
    ++ (match role with | some r => [(lit "role", r)] | none => [])
    ++ (match content with | some c => [(lit "content", c)] | none => [])
    ++ (if fin then [(lit "status", Json.str (lit "finished"))] else []))

/-- Per-line decode of the Frame Decoder: the parsed payload of a data: line,
none for blank, non-data: or malformed lines. -/
def decodeDataLine (line : List Char) : Option Json :=
  let t := jsTrim line
  if t.isEmpty || !((lit "data:").isPrefixOf t) then none
  else Json.parse (jsTrim (t.drop 5))


/-
Thinking/answer token separation of the DeepSeek loadingFinishedHandler in
ollama-mock.js, lines 1469 to 1601 (the isThinkingModel branch).
-/

/-- Accumulator of the loadingFinishedHandler's token separation: the phase
flag (starts in the thinking phase) and the two token arrays. -/
structure DsFinishState where
  inThinkingPhase : Bool
  thinkingTokens : List (List Char)
  answerTokens : List (List Char)

/-- Effect of one body line in the loadingFinishedHandler loop (lines 1490 to
1521): lines without the data: envelope are skipped; the [DONE] payload breaks
out of the loop; a payload that fails JSON.parse is skipped by the catch (a
null payload, whose .p access throws into the same catch, is likewise
skipped); a payload whose p is "response/thinking_elapsed_secs" is the
phase-transition marker; a payload whose v is a truthy string is a token;
everything else is skipped. -/
inductive DsLineEffect where
  | breakDone : DsLineEffect
  | marker : DsLineEffect
  | token (v : List Char) : DsLineEffect
  | skip : DsLineEffect
deriving DecidableEq

/-- The per-line decision tree of the loadingFinishedHandler loop. -/
def dsLineEffect (line : List Char) : DsLineEffect :=
  let t := jsTrim line
  if (lit "data:").isPrefixOf t then
    let dataStr := jsTrim (t.drop 5)
    if dataStr == lit "[DONE]" then .breakDone
    else
      match Json.parse dataStr with
      | none => .skip
      | some j =>
        if isStrEq (j.getField (lit "p")) (lit "response/thinking_elapsed_secs") then
          .marker
        else
          match j.getField (lit "v") with
          | some (Json.str v) => if !v.isEmpty then .token v else .skip
          | _ => .skip
  else .skip

/-- Application of one line effect to the accumulator, mirroring the loop
body: the marker clears the phase flag and continues; a token is pushed onto
thinkingTokens while in the thinking phase and onto answerTokens afterwards;
[DONE] breaks (second component true). -/
def dsApplyEffect (st : DsFinishState) : DsLineEffect → DsFinishState × Bool
  | .breakDone => (st, true)
  | .marker => ({ st with inThinkingPhase := false }, false)
  | .token v =>
    if st.inThinkingPhase then
      ({ st with thinkingTokens := st.thinkingTokens ++ [v] }, false)
    else
      ({ st with answerTokens := st.answerTokens ++ [v] }, false)
  | .skip => (st, false)

/-- One line of the loadingFinishedHandler loop. -/
def dsFinishLine (st : DsFinishState) (line : List Char) : DsFinishState × Bool :=
  dsApplyEffect st (dsLineEffect line)

/-- The loadingFinishedHandler loop over the body lines; a break stops the
remaining lines. -/
def dsFinishLines (st : DsFinishState) : List (List Char) → DsFinishState
  | [] => st
  | l :: ls =>
    match dsFinishLine st l with
    | (st2, true) => st2
    | (st2, false) => dsFinishLines st2 ls

/-- Token separation of a whole finished body text (lines 1483 to 1522):
text.split("\n") fed through the loop from the initial thinking-phase
state. -/
def dsTokenSeparation (text : List Char) : DsFinishState :=
  dsFinishLines { inThinkingPhase := true, thinkingTokens := [], answerTokens := [] }
    (splitAll text)

/-- Output composition of the loadingFinishedHandler (lines 1544 to 1552): the
joined thinking tokens wrapped in the delimiter pair when any exist, followed
by the joined answer tokens when any exist. -/
def dsComposeOutput (st : DsFinishState) : List Char :=
  (if st.thinkingTokens.length > 0 then
     lit "<thinking>\n" ++ st.thinkingTokens.flatten ++ lit "\n</thinking>\n\n"
   else [])
  ++ (if st.answerTokens.length > 0 then st.answerTokens.flatten else [])

/-- The outward stream the loadingFinishedHandler then writes (lines 1554 to
1591): one content chunk with role assistant carrying the composed output, the
final chunk with finish_reason "stop", the terminal sentinel and the close. -/
def dsFinishStream (text : List Char) : List Out :=
  [Out.chunk (some assistantJson)
     (some (Json.str (dsComposeOutput (dsTokenSeparation text)))) none,
   Out.chunk none none (some (lit "stop")), Out.done, Out.close]

/-- The token a line contributes, when it contributes one. -/
def dsLineToken (line : List Char) : Option (List Char) :=
  match dsLineEffect line with
  | .token v => some v
  | _ => none

/-
Transport-chunk decoding: the Qwen data handler receives Buffers and decodes
each one independently with chunk.toString() (ollama-mock.js line 616), with
no StringDecoder carrying state across chunks.
-/

/-- UTF-8 continuation byte test. -/
def isUtf8Cont (b : Nat) : Bool := decide (0x80 ≤ b ∧ b < 0xC0)

/-- The U+FFFD replacement character that Buffer.toString("utf8") substitutes
for invalid or truncated byte sequences. -/
def utf8Repl : Char := Char.ofNat 0xFFFD

/-- Decoder state of the WHATWG UTF-8 decoder that Buffer.toString("utf8")
implements: remaining continuation bytes of the current sequence, the partial
code point, and the admissible range of the next byte. -/
structure UtfState where
  needed : Nat
  cp : Nat
  lo : Nat
  hi : Nat

/-- The idle decoder state (no sequence in progress). -/
def utf8Idle : UtfState := { needed := 0, cp := 0, lo := 0x80, hi := 0xBF }

/-- Handling of a byte in the idle state: ASCII is emitted, a lead byte opens
a sequence with its length and boundaries, anything else (stray continuation,
overlong lead C0/C1, lead above F4) becomes one replacement character. -/
def utf8Lead (b : Nat) : List Char × UtfState :=
  if b < 0x80 then ([Char.ofNat b], utf8Idle)
  else if b < 0xC2 then ([utf8Repl], utf8Idle)
  else if b < 0xE0 then
    ([], { needed := 1, cp := b - 0xC0, lo := 0x80, hi := 0xBF })
  else if b < 0xF0 then
    ([], { needed := 2, cp := b - 0xE0,
           lo := if b = 0xE0 then 0xA0 else 0x80,
           hi := if b = 0xED then 0x9F else 0xBF })
  else if b < 0xF5 then
    ([], { needed := 3, cp := b - 0xF0,
           lo := if b = 0xF0 then 0x90 else 0x80,
           hi := if b = 0xF4 then 0x8F else 0xBF })
  else ([utf8Repl], utf8Idle)

/-- One byte of the WHATWG UTF-8 decoder: a continuation byte inside its
admissible range extends the code point (emitting it when the sequence is
complete); a byte outside the range emits a replacement character and is
reprocessed as a fresh lead byte. -/
def utf8Step (st : UtfState) (b : Nat) : List Char × UtfState :=
  if st.needed = 0 then utf8Lead b
  else if st.lo ≤ b ∧ b ≤ st.hi then
    if st.needed = 1 then ([Char.ofNat (st.cp * 64 + (b - 0x80))], utf8Idle)
    else ([], { needed := st.needed - 1, cp := st.cp * 64 + (b - 0x80),
                lo := 0x80, hi := 0xBF })
  else
    match utf8Lead b with
    | (out, st2) => (utf8Repl :: out, st2)

/-- The decoder run over a byte list from a given state; a sequence left
incomplete at the end of the buffer becomes one replacement character, since
Buffer.toString("utf8") keeps no state across calls. -/
def utf8DecodeFrom (st : UtfState) : List Nat → List Char
  | [] => if st.needed = 0 then [] else [utf8Repl]
  | b :: rest =>
    match utf8Step st b with
    | (out, st2) => out ++ utf8DecodeFrom st2 rest

/-- Buffer.toString("utf8") on the byte-list model: WHATWG UTF-8 decoding with
replacement, starting idle. -/
def utf8Decode (bytes : List Nat) : List Char := utf8DecodeFrom utf8Idle bytes

/-- One transport Buffer step of the Qwen data handler at the byte level:
chunk.toString() decodes this chunk alone, then the decoded text goes through
the buffer-reattach-and-split step. -/
def byteFeed (buf : List Char) (bytes : List Nat) : List (List Char) × List Char :=
  feedChunk buf (utf8Decode bytes)

/-- Bytes of an ASCII string literal. -/
def litBytes (s : String) : List Nat := s.data.map Char.toNat


theorem splitLines_append (x y : List Char) :
    splitLines (x ++ y) =
      ((splitLines x).1 ++ (splitLines ((splitLines x).2 ++ y)).1,
       (splitLines ((splitLines x).2 ++ y)).2) := by
  induction x with
  | nil => simp [splitLines]
  | cons c x ih =>
    rcases hA : splitLines x with ⟨la, pa⟩
    rw [hA] at ih
    dsimp only at ih
    rcases hB : splitLines (pa ++ y) with ⟨lb, pb⟩
    rw [hB] at ih
    dsimp only at ih
    by_cases hc : c = '\n'
    · subst hc
      simp only [List.cons_append, splitLines, hA, hB, if_pos rfl, List.append_eq]
      rw [ih]
      cases la <;> simp [hB]
    · cases la with
      | nil =>
        simp only [List.cons_append, splitLines, hA, hB, if_neg hc, List.append_eq]
        rw [ih]
        cases lb <;> simp
      | cons h t =>
        simp only [List.cons_append, splitLines, hA, hB, if_neg hc, List.append_eq]
        rw [ih]
        simp

theorem processQwenDeltas_append (st : QwenState) (xs ys : List Json) :
    processQwenDeltas st (xs ++ ys)
      = ((processQwenDeltas (processQwenDeltas st xs).1 ys).1,
         (processQwenDeltas st xs).2 ++ (processQwenDeltas (processQwenDeltas st xs).1 ys).2) := by
  induction xs generalizing st with
  | nil => simp [processQwenDeltas]
  | cons d ds ih =>
    simp only [List.cons_append, processQwenDeltas, List.append_eq]
    rcases h1 : processQwenDelta st d with ⟨s1, o1⟩
    rcases h2 : processQwenDeltas s1 ds with ⟨s2, o2⟩
    rw [ih s1, h2]
    simp [List.append_assoc]

theorem runDsFrom_append (st : DsState) (xs ys : List DsEvt) :
    runDsFrom st (xs ++ ys)
      = ((runDsFrom (runDsFrom st xs).1 ys).1,
         (runDsFrom st xs).2 ++ (runDsFrom (runDsFrom st xs).1 ys).2) := by
  induction xs generalizing st with
  | nil => simp [runDsFrom]
  | cons e es ih =>
    simp only [List.cons_append, runDsFrom, List.append_eq]
    rcases h1 : processDsEvt st e with ⟨s1, o1⟩
    rcases h2 : runDsFrom s1 es with ⟨s2, o2⟩
    rw [ih s1, h2]
    simp [List.append_assoc]

theorem thinkDelta_phase (c : Option Json) (f : Bool) :
    (thinkDelta c f).getField (lit "phase") = some (Json.str (lit "think")) := by
  cases c <;> cases f <;> rfl

theorem thinkDelta_content (c : Option Json) (f : Bool) :
    (thinkDelta c f).getField (lit "content") = c := by
  cases c <;> cases f <;> rfl

theorem thinkDelta_status (c : Option Json) (f : Bool) :
    (thinkDelta c f).getField (lit "status")
      = if f then some (Json.str (lit "finished")) else none := by
  cases c <;> cases f <;> rfl

theorem answerDelta_phase (r c : Option Json) (f : Bool) :
    (answerDelta r c f).getField (lit "phase") = some (Json.str (lit "answer")) := by
  cases r <;> cases c <;> cases f <;> rfl

theorem answerDelta_role (r c : Option Json) (f : Bool) :
    (answerDelta r c f).getField (lit "role") = r := by
  cases r <;> cases c <;> cases f <;> rfl

theorem answerDelta_content (r c : Option Json) (f : Bool) :
    (answerDelta r c f).getField (lit "content") = c := by
  cases r <;> cases c <;> cases f <;> rfl

theorem answerDelta_status (r c : Option Json) (f : Bool) :
    (answerDelta r c f).getField (lit "status")
      = if f then some (Json.str (lit "finished")) else none := by
  cases r <;> cases c <;> cases f <;> rfl

theorem processQwenDelta_think (st : QwenState) (c : Option Json) (f : Bool) :
    processQwenDelta st (thinkDelta c f)
      = ({ isInThinkingPhase := !f,
           thinkingContent := st.thinkingContent
             ++ (match c with
                 | some j => if jsonTruthy j then [j] else []
                 | none => []) },
         (if st.isInThinkingPhase then [] else [thinkingHeaderOut])
           ++ thinkContentOut c
           ++ (if f then [thinkingFooterOut] else [])) := by
  cases f <;> cases c <;>
    simp +decide [processQwenDelta, thinkDelta_phase, thinkDelta_content,
      thinkDelta_status, isStrEq, thinkContentOut] <;>
    (try rename_i j ; by_cases hj : jsonTruthy j <;> simp [hj])

theorem processQwenDelta_answer (st : QwenState) (r c : Option Json) (f : Bool) :
    processQwenDelta st (answerDelta r c f) = (st, [answerOut r c f]) := by
  cases f <;>
    simp +decide [processQwenDelta, answerDelta_phase, answerDelta_role,
      answerDelta_content, answerDelta_status, isStrEq]

theorem processQwenDeltas_thinks (ts : List (Option Json)) :
    ∀ st : QwenState, st.isInThinkingPhase = true →
      ∃ tc, processQwenDeltas st (ts.map (fun c => thinkDelta c false))
        = ({ isInThinkingPhase := true, thinkingContent := tc },
           (ts.map thinkContentOut).flatten) := by
  induction ts with
  | nil =>
    intro st h
    exact ⟨st.thinkingContent, by cases st; simp_all [processQwenDeltas]⟩
  | cons c ts ih =>
    intro st h
    obtain ⟨tc, htc⟩ := ih
      { isInThinkingPhase := true,
        thinkingContent := st.thinkingContent
          ++ (match c with
              | some j => if jsonTruthy j then [j] else []
              | none => []) } rfl
    refine ⟨tc, ?_⟩
    simp only [List.map_cons, processQwenDeltas, processQwenDelta_think, h,
      Bool.not_false, if_true, htc]
    simp

theorem processQwenDeltas_answers (as : List (Option Json × Option Json × Bool)) :
    ∀ st : QwenState,
      processQwenDeltas st (as.map (fun a => answerDelta a.1 a.2.1 a.2.2))
        = (st, as.map (fun a => answerOut a.1 a.2.1 a.2.2)) := by
  induction as with
  | nil => intro st; simp [processQwenDeltas]
  | cons a as ih => intro st; simp [processQwenDeltas, processQwenDelta_answer, ih]

theorem dsFinishLines_thinking (pre : List (List Char)) :
    ∀ (T A : List (List Char)) (rest : List (List Char)),
      (∀ l ∈ pre, dsLineEffect l ≠ DsLineEffect.marker
          ∧ dsLineEffect l ≠ DsLineEffect.breakDone) →
      dsFinishLines { inThinkingPhase := true, thinkingTokens := T, answerTokens := A }
          (pre ++ rest)
        = dsFinishLines
            { inThinkingPhase := true, thinkingTokens := T ++ pre.filterMap dsLineToken,
              answerTokens := A } rest := by
  induction pre with
  | nil => intro T A rest _; simp
  | cons l pre ih =>
    intro T A rest h
    obtain ⟨hm, hb⟩ := h l (List.mem_cons_self _ _)
    have hrest := fun l hl => h l (List.mem_cons_of_mem _ hl)
    cases he : dsLineEffect l with
    | breakDone => exact absurd he hb
    | marker => exact absurd he hm
    | token v =>
      have hred : dsFinishLine
            { inThinkingPhase := true, thinkingTokens := T, answerTokens := A } l
          = ({ inThinkingPhase := true, thinkingTokens := T ++ [v], answerTokens := A },
             false) := by
        simp [dsFinishLine, he, dsApplyEffect]
      simp only [List.cons_append, dsFinishLines, hred, List.append_eq]
      rw [ih _ _ _ hrest]
      simp [dsLineToken, he]
    | skip =>
      have hred : dsFinishLine
            { inThinkingPhase := true, thinkingTokens := T, answerTokens := A } l
          = ({ inThinkingPhase := true, thinkingTokens := T, answerTokens := A }, false) := by
        simp [dsFinishLine, he, dsApplyEffect]
      simp only [List.cons_append, dsFinishLines, hred, List.append_eq]
      rw [ih _ _ _ hrest]
      simp [dsLineToken, he]

theorem dsFinishLines_answer (post : List (List Char)) :
    ∀ (T A : List (List Char)),
      (∀ l ∈ post, dsLineEffect l ≠ DsLineEffect.marker
          ∧ dsLineEffect l ≠ DsLineEffect.breakDone) →
      dsFinishLines { inThinkingPhase := false, thinkingTokens := T, answerTokens := A } post
        = { inThinkingPhase := false, thinkingTokens := T,
            answerTokens := A ++ post.filterMap dsLineToken } := by
  induction post with
  | nil => intro T A _; simp [dsFinishLines]
  | cons l post ih =>
    intro T A h
    obtain ⟨hm, hb⟩ := h l (List.mem_cons_self _ _)
    have hrest := fun l hl => h l (List.mem_cons_of_mem _ hl)
    cases he : dsLineEffect l with
    | breakDone => exact absurd he hb
    | marker => exact absurd he hm
    | token v =>
      have hred : dsFinishLine
            { inThinkingPhase := false, thinkingTokens := T, answerTokens := A } l
          = ({ inThinkingPhase := false, thinkingTokens := T, answerTokens := A ++ [v] },
             false) := by
        simp [dsFinishLine, he, dsApplyEffect]
      simp only [dsFinishLines, hred]
      rw [ih _ _ hrest]
      simp [dsLineToken, he]
    | skip =>
      have hred : dsFinishLine
            { inThinkingPhase := false, thinkingTokens := T, answerTokens := A } l
          = ({ inThinkingPhase := false, thinkingTokens := T, answerTokens := A }, false) := by
        simp [dsFinishLine, he, dsApplyEffect]
      simp only [dsFinishLines, hred]
      rw [ih _ _ hrest]
      simp [dsLineToken, he]

theorem dsComposeOutput_eq (T A : List (List Char)) :
    dsComposeOutput { inThinkingPhase := false, thinkingTokens := T, answerTokens := A }
      = (if T.isEmpty then []
         else lit "<thinking>\n" ++ T.flatten ++ lit "\n</thinking>\n\n") ++ A.flatten := by
  cases T <;> cases A <;> simp [dsComposeOutput]

/-- C2: for every interleaving of thinking-phase and answer-phase upstream
events that respects the phase-transition marker, all thinking content is
emitted wrapped in the delimiter pair strictly before the first answer-phase
content, in both cited implementations.  First conjunct: the Qwen normalizer
(ollama-mock.js 637-700), where thinking deltas precede the status "finished"
marker, which precedes the answer deltas, emits the opening delimiter chunk,
every thinking content chunk and the closing delimiter chunk before any answer
chunk.  Second conjunct: the DeepSeek loadingFinishedHandler (ollama-mock.js
1481-1552), where the body lines before the thinking_elapsed_secs marker line
are thinking and the lines after it are answer, composes its single emitted
content string as the wrapped thinking tokens followed by the answer tokens. -/
theorem qwen_thinking_before_answer (ts : List (Option Json)) (mc : Option Json)
    (as : List (Option Json × Option Json × Bool))
    (pre post : List (List Char)) (mline : List Char)
    (hm : dsLineEffect mline = DsLineEffect.marker)
    (hpre : ∀ l ∈ pre, dsLineEffect l ≠ DsLineEffect.marker
        ∧ dsLineEffect l ≠ DsLineEffect.breakDone)
    (hpost : ∀ l ∈ post, dsLineEffect l ≠ DsLineEffect.marker
        ∧ dsLineEffect l ≠ DsLineEffect.breakDone) :
    (processQwenDeltas initQwenState
        (ts.map (fun c => thinkDelta c false)
          ++ thinkDelta mc true :: as.map (fun a => answerDelta a.1 a.2.1 a.2.2))).2
      = thinkingHeaderOut
          :: ((ts.map thinkContentOut).flatten ++ thinkContentOut mc
              ++ thinkingFooterOut :: as.map (fun a => answerOut a.1 a.2.1 a.2.2))
    ∧ dsComposeOutput (dsFinishLines
          { inThinkingPhase := true, thinkingTokens := [], answerTokens := [] }
          (pre ++ mline :: post))
        = (if (pre.filterMap dsLineToken).isEmpty then []
           else lit "<thinking>\n" ++ (pre.filterMap dsLineToken).flatten
             ++ lit "\n</thinking>\n\n")
          ++ (post.filterMap dsLineToken).flatten := by
  constructor
  · cases ts with
    | nil =>
      simp only [List.map_nil, List.nil_append, processQwenDeltas,
        processQwenDelta_think, initQwenState]
      simp only [Bool.not_true, if_false]
      rw [processQwenDeltas_answers]
      simp
    | cons c ts2 =>
      simp only [List.map_cons, List.cons_append, processQwenDeltas,
        processQwenDelta_think, initQwenState, List.append_eq]
      rw [processQwenDeltas_append]
      obtain ⟨ tc, htc ⟩ := processQwenDeltas_thinks ts2
        { isInThinkingPhase := !false,
          thinkingContent := [] ++ (match c with
              | some j => if jsonTruthy j then [j] else []
              | none => []) } (by rfl)
      rw [htc]
      simp only [processQwenDeltas, processQwenDelta_think, Bool.not_true, if_true]
      rw [processQwenDeltas_answers]
      simp
  · rw [dsFinishLines_thinking pre [] [] (mline :: post) hpre]
    simp only [List.nil_append, dsFinishLines, dsFinishLine, hm, dsApplyEffect]
    rw [dsFinishLines_answer post _ _ hpost]
    rw [dsComposeOutput_eq]
    simp

theorem qwen_thinking_before_answer_witness :
    (dsLineEffect (lit "data: \x7b\"p\":\"response/thinking_elapsed_secs\"\x7d")
        = DsLineEffect.marker)
    ∧ (∀ l ∈ [lit "data: \x7b\"v\":\"let me think\"\x7d"],
        dsLineEffect l ≠ DsLineEffect.marker ∧ dsLineEffect l ≠ DsLineEffect.breakDone)
    ∧ (∀ l ∈ [lit "data: \x7b\"v\":\"hello!\"\x7d"],
        dsLineEffect l ≠ DsLineEffect.marker ∧ dsLineEffect l ≠ DsLineEffect.breakDone)
    ∧ dsComposeOutput (dsFinishLines
          { inThinkingPhase := true, thinkingTokens := [], answerTokens := [] }
          ([lit "data: \x7b\"v\":\"let me think\"\x7d"]
            ++ lit "data: \x7b\"p\":\"response/thinking_elapsed_secs\"\x7d"
              :: [lit "data: \x7b\"v\":\"hello!\"\x7d"]))
        = (if ([lit "data: \x7b\"v\":\"let me think\"\x7d"].filterMap dsLineToken).isEmpty
           then []
           else lit "<thinking>\n"
             ++ ([lit "data: \x7b\"v\":\"let me think\"\x7d"].filterMap dsLineToken).flatten
             ++ lit "\n</thinking>\n\n")
          ++ ([lit "data: \x7b\"v\":\"hello!\"\x7d"].filterMap dsLineToken).flatten :=
  ⟨ rfl, by decide, by decide,
   (qwen_thinking_before_answer [] none []
     [lit "data: \x7b\"v\":\"let me think\"\x7d"]
     [lit "data: \x7b\"v\":\"hello!\"\x7d"]
     (lit "data: \x7b\"p\":\"response/thinking_elapsed_secs\"\x7d")
     rfl (by decide) (by decide)).2 ⟩

theorem processDsLine_cases (started : Bool) (line : List Char) :
    processDsLine started line = (started, [])
    ∨ ∃ v : List Char, ¬v.isEmpty ∧ processDsLine started line
        = (true, [Out.chunk (if started then none else some assistantJson)
                    (some (Json.str v)) none]) := by
  by_cases hp : ((lit "data:").isPrefixOf (jsTrim line)) = true
  · rcases hJ : Json.parse (jsTrim ((jsTrim line).drop 5)) with _ | j
    · left; simp [processDsLine, hp, hJ]
    · rcases hv : j.getField (lit "v") with _ | jv
      · left; simp [processDsLine, hp, hJ, hv]
      · cases jv with
        | str v =>
          by_cases he : v.isEmpty
          · left; simp [processDsLine, hp, hJ, hv, he]
          · right
            refine ⟨v, he, ?_⟩
            simp [processDsLine, hp, hJ, hv, he]
        | null => left; simp [processDsLine, hp, hJ, hv]
        | bool b => left; simp [processDsLine, hp, hJ, hv]
        | num l => left; simp [processDsLine, hp, hJ, hv]
        | arr a => left; simp [processDsLine, hp, hJ, hv]
        | obj o => left; simp [processDsLine, hp, hJ, hv]
  · left; simp [processDsLine, hp]

theorem processDsLines_chunks (ls : List (List Char)) :
    ∀ started : Bool, ∀ o ∈ (processDsLines started ls).2,
      ∃ r v, ¬(v : List Char).isEmpty ∧ o = Out.chunk r (some (Json.str v)) none := by
  induction ls with
  | nil => intro s o ho; simp [processDsLines] at ho
  | cons l ls ih =>
    intro s o ho
    rcases processDsLine_cases s l with h | ⟨v, hv, h⟩
    · rcases hr : processDsLines s ls with ⟨b2, o2⟩
      simp only [processDsLines, h, hr] at ho
      simp at ho
      have := ih s o
      rw [hr] at this
      exact this ho
    · rcases hr : processDsLines true ls with ⟨b2, o2⟩
      simp only [processDsLines, h, hr] at ho
      simp at ho
      rcases ho with ho | ho
      · exact ⟨_, v, hv, ho⟩
      · have := ih true o
        rw [hr] at this
        exact this ho

theorem runDsFrom_dataOnly (evts : List DsEvt) :
    ∀ st : DsState, st.closed = false → (∀ e ∈ evts, isDataEvt e = true) →
      (runDsFrom st evts).1.closed = false
      ∧ ∀ o ∈ (runDsFrom st evts).2,
          ∃ r v, ¬(v : List Char).isEmpty ∧ o = Out.chunk r (some (Json.str v)) none := by
  induction evts with
  | nil => intro st h _; simp [runDsFrom, h]
  | cons e es ih =>
    intro st hc hd
    cases e with
    | data text =>
      rcases hl : processDsLines st.responseStarted (splitAll text) with ⟨b, out⟩
      have hstep : processDsEvt st (DsEvt.data text)
          = ({ st with responseStarted := b }, out) := by
        simp [processDsEvt, hc, hl]
      rcases hrest : runDsFrom { st with responseStarted := b } es with ⟨s2, o2⟩
      have hrun : runDsFrom st (DsEvt.data text :: es) = (s2, out ++ o2) := by
        simp only [runDsFrom, hstep, hrest]
      obtain ⟨ihc, iho⟩ := ih { st with responseStarted := b } hc
        (fun e he => hd e (List.mem_cons_of_mem _ he))
      rw [hrest] at ihc iho
      rw [hrun]
      refine ⟨ihc, ?_⟩
      intro o ho
      simp at ho
      rcases ho with ho | ho
      · have := processDsLines_chunks (splitAll text) st.responseStarted o
        rw [hl] at this
        exact this ho
      · exact iho o ho
    | finished =>
      have := hd DsEvt.finished (List.mem_cons_self _ _)
      simp [isDataEvt] at this

theorem runDsFrom_closed (evts : List DsEvt) :
    ∀ st : DsState, st.closed = true → runDsFrom st evts = (st, []) := by
  induction evts with
  | nil => intro st _; rfl
  | cons e es ih =>
    intro st h
    cases e with
    | data text => rw [runDsFrom]; simp [processDsEvt, h, ih st h]
    | finished => rw [runDsFrom]; simp [processDsEvt, h, ih st h]

/-- C1: for a well-formed upstream event sequence with exactly one terminal
completion event, the DeepSeek streaming pipeline of next.config.js emits
exactly one chunk with finish_reason "stop", and that chunk is the last chunk
written before the terminal sentinel and the close; the Vercel streaming
pipeline of vercel.js does the same for every token sequence. -/
theorem pipeline_single_stop (es1 es2 : List DsEvt)
    (h1 : ∀ e ∈ es1, isDataEvt e = true) (_h2 : ∀ e ∈ es2, isDataEvt e = true) :
    ((runDs (es1 ++ DsEvt.finished :: es2)).countP isStopChunk = 1
      ∧ ∃ pre, runDs (es1 ++ DsEvt.finished :: es2)
          = pre ++ [Out.chunk none none (some (lit "stop")), Out.done, Out.close]
        ∧ ∀ o ∈ pre, outFinish o = none ∧ o ≠ Out.done)
    ∧ ∀ tokens : List (List Char),
        (vercelStream tokens).countP isStopChunk = 1
        ∧ ∃ pre, vercelStream tokens
            = pre ++ [Out.chunk none none (some (lit "stop")), Out.done, Out.close]
          ∧ ∀ o ∈ pre, outFinish o = none ∧ o ≠ Out.done := by
  constructor
  · obtain ⟨hc1, ho1⟩ := runDsFrom_dataOnly es1
      { responseStarted := false, closed := false } rfl h1
    rcases hr1 : runDsFrom { responseStarted := false, closed := false } es1 with ⟨s1, o1⟩
    rw [hr1] at hc1 ho1
    dsimp only at hc1 ho1
    have hstep : processDsEvt s1 DsEvt.finished
        = ({ s1 with closed := true },
           [Out.chunk none none (some (lit "stop")), Out.done, Out.close]) := by
      simp [processDsEvt, hc1]
    have hrest := runDsFrom_closed es2 { s1 with closed := true } rfl
    have hall : runDs (es1 ++ DsEvt.finished :: es2)
        = o1 ++ [Out.chunk none none (some (lit "stop")), Out.done, Out.close] := by
      unfold runDs
      rw [runDsFrom_append, hr1]
      simp only [runDsFrom, hstep, hrest]
      simp
    refine ⟨?_, o1, hall, ?_⟩
    · rw [hall]
      have hzero : o1.countP isStopChunk = 0 := by
        rw [List.countP_eq_zero]
        intro a ha
        obtain ⟨r, v, hv, rfl⟩ := ho1 a ha
        simp [isStopChunk]
      simp +decide [List.countP_append, List.countP_cons, hzero, isStopChunk]
    · intro o ho
      obtain ⟨r, v, hv, rfl⟩ := ho1 o ho
      simp [outFinish]
  · intro tokens
    have hmap : (tokens.map (fun t => Out.chunk none (some (Json.str t)) none)).countP
        isStopChunk = 0 := by
      rw [List.countP_eq_zero]
      intro a ha
      obtain ⟨t, _, rfl⟩ := List.mem_map.mp ha
      simp [isStopChunk]
    constructor
    · simp +decide [vercelStream, List.countP_append, List.countP_cons, hmap, isStopChunk]
    · refine ⟨Out.chunk (some assistantJson) (some (Json.str [])) none
          :: tokens.map (fun t => Out.chunk none (some (Json.str t)) none), by
            simp [vercelStream], ?_⟩
      intro o ho
      rcases List.mem_cons.mp ho with rfl | ho
      · simp [outFinish]
      · obtain ⟨t, _, rfl⟩ := List.mem_map.mp ho
        simp [outFinish]

theorem processDsLines_roles (ls : List (List Char)) :
    ∀ started : Bool,
      (started = true →
        (processDsLines started ls).1 = true
        ∧ ∀ o ∈ textChunks (processDsLines started ls).2, outRole o = none)
      ∧ (started = false →
        (textChunks (processDsLines started ls).2 = []
            ∧ (processDsLines started ls).1 = false)
        ∨ ∃ v rest, textChunks (processDsLines started ls).2
              = Out.chunk (some assistantJson) (some (Json.str v)) none :: rest
            ∧ (∀ o ∈ rest, outRole o = none)
            ∧ (processDsLines started ls).1 = true) := by
  induction ls with
  | nil =>
    intro started
    constructor
    · intro hs; simp [processDsLines, textChunks, hs]
    · intro hs; left; simp [processDsLines, textChunks, hs]
  | cons l ls ih =>
    intro started
    rcases processDsLine_cases started l with h | ⟨v, hv, h⟩
    · rcases hr : processDsLines started ls with ⟨b2, o2⟩
      have hred : processDsLines started (l :: ls) = (b2, o2) := by
        simp only [processDsLines, h, hr]
        simp
      obtain ⟨ih1, ih2⟩ := ih started
      rw [hr] at ih1 ih2
      rw [hred]
      exact ⟨ih1, ih2⟩
    · rcases hr : processDsLines true ls with ⟨b2, o2⟩
      have hred : processDsLines started (l :: ls)
          = (b2, Out.chunk (if started then none else some assistantJson)
                   (some (Json.str v)) none :: o2) := by
        simp only [processDsLines, h, hr]
        simp
      obtain ⟨ih1, ih2⟩ := ih true
      rw [hr] at ih1
      obtain ⟨ihb, ihr⟩ := ih1 rfl
      have htext : textChunks (Out.chunk (if started then none else some assistantJson)
            (some (Json.str v)) none :: o2)
          = Out.chunk (if started then none else some assistantJson)
              (some (Json.str v)) none :: textChunks o2 := by
        simp [textChunks, List.filter_cons, outCarriesText, jsonTruthy, hv]
      rw [hred]
      constructor
      · intro hs
        subst hs
        refine ⟨ihb, ?_⟩
        rw [htext]
        intro o ho
        rcases List.mem_cons.mp ho with rfl | ho
        · simp [outRole]
        · exact ihr o ho
      · intro hs
        subst hs
        right
        exact ⟨v, textChunks o2, by rw [htext]; simp, ihr, ihb⟩

theorem runDsFrom_roles (evts : List DsEvt) :
    ∀ st : DsState,
      (st.responseStarted = true →
        (runDsFrom st evts).1.responseStarted = true
        ∧ ∀ o ∈ textChunks (runDsFrom st evts).2, outRole o = none)
      ∧ (st.responseStarted = false →
        (textChunks (runDsFrom st evts).2 = []
            ∧ (runDsFrom st evts).1.responseStarted = false)
        ∨ ∃ v rest, textChunks (runDsFrom st evts).2
              = Out.chunk (some assistantJson) (some (Json.str v)) none :: rest
            ∧ (∀ o ∈ rest, outRole o = none)
            ∧ (runDsFrom st evts).1.responseStarted = true) := by
  induction evts with
  | nil =>
    intro st
    constructor
    · intro hs; simp [runDsFrom, textChunks, hs]
    · intro hs; left; simp [runDsFrom, textChunks, hs]
  | cons e es ih =>
    intro st
    by_cases hcl : st.closed = true
    · have hstep : processDsEvt st e = (st, []) := by
        cases e <;> simp [processDsEvt, hcl]
      rcases hr : runDsFrom st es with ⟨s2, o2⟩
      have hred : runDsFrom st (e :: es) = (s2, o2) := by
        simp only [runDsFrom, hstep, hr]
        simp
      obtain ⟨ih1, ih2⟩ := ih st
      rw [hr] at ih1 ih2
      rw [hred]
      exact ⟨ih1, ih2⟩
    · replace hcl : st.closed = false := by simpa using hcl
      cases e with
      | finished =>
        have hstep : processDsEvt st DsEvt.finished
            = ({ st with closed := true },
               [Out.chunk none none (some (lit "stop")), Out.done, Out.close]) := by
          simp [processDsEvt, hcl]
        rcases hr : runDsFrom { st with closed := true } es with ⟨s2, o2⟩
        have hred : runDsFrom st (DsEvt.finished :: es)
            = (s2, [Out.chunk none none (some (lit "stop")), Out.done, Out.close] ++ o2) := by
          simp only [runDsFrom, hstep, hr]
        obtain ⟨ih1, ih2⟩ := ih { st with closed := true }
        rw [hr] at ih1 ih2
        have htc : textChunks ([Out.chunk none none (some (lit "stop")), Out.done,
            Out.close] ++ o2) = textChunks o2 := by
          simp [textChunks, List.filter_append, outCarriesText]
        rw [hred]
        constructor
        · intro hs
          obtain ⟨iha, ihb⟩ := ih1 hs
          rw [htc]
          exact ⟨iha, ihb⟩
        · intro hs
          rcases ih2 hs with ⟨ha, hb⟩ | ⟨v, rest, ha, hb, hc⟩
          · left; rw [htc]; exact ⟨ha, hb⟩
          · right; exact ⟨v, rest, by rw [htc]; exact ha, hb, hc⟩
      | data text =>
        rcases hl : processDsLines st.responseStarted (splitAll text) with ⟨b, out⟩
        have hstep : processDsEvt st (DsEvt.data text)
            = ({ st with responseStarted := b }, out) := by
          simp [processDsEvt, hcl, hl]
        rcases hr : runDsFrom { st with responseStarted := b } es with ⟨s2, o2⟩
        have hred : runDsFrom st (DsEvt.data text :: es) = (s2, out ++ o2) := by
          simp only [runDsFrom, hstep, hr]
        obtain ⟨ln1, ln2⟩ := processDsLines_roles (splitAll text) st.responseStarted
        rw [hl] at ln1 ln2
        obtain ⟨ih1, ih2⟩ := ih { st with responseStarted := b }
        rw [hr] at ih1 ih2
        rw [hred]
        have htca : textChunks (out ++ o2) = textChunks out ++ textChunks o2 := by
          simp [textChunks, List.filter_append]
        constructor
        · intro hs
          obtain ⟨lb, lo⟩ := ln1 hs
          dsimp only at lb
          subst lb
          obtain ⟨iha, ihb⟩ := ih1 rfl
          rw [htca]
          refine ⟨iha, ?_⟩
          intro o ho
          rcases List.mem_append.mp ho with ho | ho
          · exact lo o ho
          · exact ihb o ho
        · intro hs
          rcases ln2 hs with ⟨la, lb⟩ | ⟨v, rest, la, lb, lc⟩
          · dsimp only at lb
            subst lb
            rcases ih2 rfl with ⟨ha, hb⟩ | ⟨v, rest, ha, hb, hc⟩
            · left
              rw [htca, la, ha]
              exact ⟨rfl, hb⟩
            · right
              refine ⟨v, rest, ?_, hb, hc⟩
              rw [htca, la, ha]
              rfl
          · dsimp only at lc
            subst lc
            obtain ⟨iha, ihb⟩ := ih1 rfl
            right
            refine ⟨v, rest ++ textChunks o2, ?_, ?_, iha⟩
            · rw [htca, la]
              simp
            · intro o ho
              rcases List.mem_append.mp ho with ho | ho
              · exact lb o ho
              · exact ihb o ho

/-- C4 (amended): in the DeepSeek streaming handler of next.config.js the
first text-carrying chunk of a stream carries role "assistant" and every
subsequent text-carrying chunk omits the role field; in the Qwen answer-phase
handler of ollama-mock.js, by contrast, every emitted chunk carries a role
field. -/
theorem role_field_first_chunk :
    (∀ evts : List DsEvt, ∀ i o, (textChunks (runDs evts)).get? i = some o →
        outRole o = if i = 0 then some assistantJson else none)
    ∧ ∀ (st : QwenState) (r c : Option Json) (f : Bool),
        ((processQwenDelta st (answerDelta r c f)).2).map outRole
          = [some (roleVal r)] := by
  constructor
  · intro evts i o ho
    obtain ⟨_, m2⟩ := runDsFrom_roles evts { responseStarted := false, closed := false }
    unfold runDs at ho
    rcases m2 rfl with ⟨ha, _⟩ | ⟨v, rest, ha, hb, _⟩
    · rw [ha] at ho
      simp at ho
    · rw [ha] at ho
      cases i with
      | zero =>
        simp only [List.get?_cons_zero, Option.some.injEq] at ho
        subst ho
        simp [outRole]
      | succ n =>
        simp only [List.get?_cons_succ] at ho
        have hmem : o ∈ rest := List.get?_mem ho
        simp [hb o hmem]
  · intro st r c f
    rw [processQwenDelta_answer]
    simp [outRole, answerOut]

/-- C4 counterexample: a Qwen stream of two answer-phase deltas emits two
chunks that both carry the role field, so a later chunk of the same outward
stream does not omit the role. -/
theorem role_field_counterexample :
    (processQwenDeltas initQwenState
        [answerDelta none (some (Json.str (lit "a"))) false,
         answerDelta none (some (Json.str (lit "b"))) false]).2
      = [Out.chunk (some assistantJson) (some (Json.str (lit "a"))) none,
         Out.chunk (some assistantJson) (some (Json.str (lit "b"))) none]
    ∧ outRole (Out.chunk (some assistantJson) (some (Json.str (lit "b"))) none) ≠ none := by
  constructor
  · rfl
  · simp [outRole]

theorem role_field_first_chunk_witness :
    ((textChunks (runDs [DsEvt.data
          (lit "data: \x7b\"v\":\"a\"\x7d\ndata: \x7b\"v\":\"b\"\x7d")])).get? 1
        = some (Out.chunk none (some (Json.str (lit "b"))) none))
    ∧ outRole (Out.chunk none (some (Json.str (lit "b"))) none)
        = if 1 = 0 then some assistantJson else none :=
  ⟨rfl, role_field_first_chunk.1
    [DsEvt.data (lit "data: \x7b\"v\":\"a\"\x7d\ndata: \x7b\"v\":\"b\"\x7d")] 1
    (Out.chunk none (some (Json.str (lit "b"))) none) rfl⟩

theorem pipeline_single_stop_witness :
    (∀ e ∈ [DsEvt.data (lit "data: \x7b\"v\":\"hi\"\x7d")], isDataEvt e = true)
    ∧ (∀ e ∈ ([] : List DsEvt), isDataEvt e = true)
    ∧ (runDs ([DsEvt.data (lit "data: \x7b\"v\":\"hi\"\x7d")]
        ++ DsEvt.finished :: [])).countP isStopChunk = 1 :=
  ⟨by decide, by decide,
   (pipeline_single_stop [DsEvt.data (lit "data: \x7b\"v\":\"hi\"\x7d")] []
     (by decide) (by decide)).1.1⟩

/-- C3 (amended): an upstream stream error on an accepted Qwen stream is
handled by closing the outward response with no error chunk at all, and a
non-OK upstream response is reported as a bare HTTP 500 JSON error, not as a
chat-completion chunk. -/
theorem upstream_error_behavior (ss : QwenStream) (b : List Char) (evts : List UpEvt) :
    processQwenEvt ss UpEvt.errEvt = (ss, [Out.close])
    ∧ handleQwenCompletion false b evts
        = HttpResult.jsonError 500 (lit "Qwen failed") b
    ∧ isStreamResult (handleQwenCompletion false b evts) = false := by
  refine ⟨rfl, ?_, ?_⟩ <;> simp [handleQwenCompletion, isStreamResult]

/-- C3 counterexample: an accepted Qwen stream that delivers one answer delta
and then errors produces only the answer chunk followed by the close: no chunk
carries the error text, no chunk carries finish_reason "stop", and the stream
simply ends. -/
theorem upstream_error_counterexample :
    runQwen [UpEvt.data (lit "data: \x7b\"choices\":[\x7b\"delta\":\x7b\"phase\":\"answer\",\"content\":\"hi\"\x7d\x7d]\x7d\n"),
        UpEvt.errEvt]
      = [Out.chunk (some assistantJson) (some (Json.str (lit "hi"))) none, Out.close]
    ∧ (runQwen [UpEvt.data (lit "data: \x7b\"choices\":[\x7b\"delta\":\x7b\"phase\":\"answer\",\"content\":\"hi\"\x7d\x7d]\x7d\n"),
        UpEvt.errEvt]).countP isStopChunk = 0 :=
  ⟨rfl, rfl⟩

/-- C5 (amended): a data: line whose payload fails JSON.parse is not dropped:
the Frame Decoder forwards the raw line (with a newline) to the caller, and it
never terminates the stream (the forwarded write is neither the sentinel nor a
close). -/
theorem malformed_line_forwarded (st : QwenState) (line : List Char)
    (h1 : (lit "data:").isPrefixOf (jsTrim line) = true)
    (h2 : Json.parse (jsTrim ((jsTrim line).drop 5)) = none) :
    processQwenLine st line = (st, [Out.raw (line ++ lit "\n")]) := by
  have hne : (jsTrim line).isEmpty = false := by
    cases hjt : jsTrim line
    · rw [hjt] at h1
      exact absurd h1 (by decide)
    · simp
  simp [processQwenLine, hne, h1, h2]

/-- C5 counterexample: the malformed payload notjson is forwarded verbatim to
the caller as data rather than silently dropped. -/
theorem malformed_line_counterexample :
    processQwenLine initQwenState (lit "data: notjson")
      = (initQwenState, [Out.raw (lit "data: notjson\n")])
    ∧ [Out.raw (lit "data: notjson\n")] ≠ ([] : List Out) :=
  ⟨rfl, by simp⟩

theorem malformed_line_forwarded_witness :
    ((lit "data:").isPrefixOf (jsTrim (lit "data: nope")) = true)
    ∧ (Json.parse (jsTrim ((jsTrim (lit "data: nope")).drop 5)) = none)
    ∧ processQwenLine initQwenState (lit "data: nope")
        = (initQwenState, [Out.raw (lit "data: nope" ++ lit "\n")]) :=
  ⟨by decide, rfl,
   malformed_line_forwarded initQwenState (lit "data: nope") (by decide) rfl⟩

/-- C6 (amended): the code contains no advance operation on the upstream
linkage identifier: a turn only stores the freshly generated next-child fid,
leaving parent_id untouched (it stays null from creation), and applying the
update twice with the same fid is idempotent. -/
theorem conversation_turn_update (s : ConvState) (f k : List Char) :
    qwenTurnUpdate (qwenTurnUpdate s f) f = qwenTurnUpdate s f
    ∧ (qwenTurnUpdate s f).parent_id = s.parent_id
    ∧ (qwenTurnUpdate s f).nextChildFid = some f
    ∧ (getOrCreate [] k).2.parent_id = none :=
  ⟨rfl, rfl, rfl, rfl⟩

/-- C6 counterexample: after a successful turn the stored session still has a
null parent identifier; it has not advanced to any upstream-returned linkage
identifier (the handler never reads the upstream response identifiers at
all). -/
theorem conversation_advance_counterexample :
    regLookup (handleTurn [] (lit "conv") (lit "fid1")) (lit "conv")
      = some { parent_id := none, nextChildFid := some (lit "fid1") }
    ∧ (none : Option (List Char)) ≠ some (lit "upstream-id") :=
  ⟨rfl, by simp⟩

theorem regLookup_regSet_self (r : Registry) (k : List Char) (v : ConvState) :
    regLookup (regSet r k v) k = some v := by
  induction r with
  | nil => simp [regSet, regLookup]
  | cons p r ih =>
    by_cases h : (p.1 == k) = true
    · simp [regSet, regLookup, h]
    · simp [regSet, regLookup, h, ih]

theorem regLookup_regSet_other (r : Registry) (k k2 : List Char) (v : ConvState)
    (h : (k2 == k) = false) : regLookup (regSet r k v) k2 = regLookup r k2 := by
  have hne : (k == k2) = false := by
    rw [beq_eq_false_iff_ne] at h ⊢
    exact fun e => h e.symm
  induction r with
  | nil => simp [regSet, regLookup, hne]
  | cons p r ih =>
    by_cases hp : (p.1 == k) = true
    · have hpk : p.1 = k := eq_of_beq hp
      have h2 : (p.1 == k2) = false := by rw [hpk]; exact hne
      simp [regSet, regLookup, hp, h2, hne]
    · simp [regSet, regLookup, hp, ih]

theorem handleTurn_keeps (r : Registry) (k k2 f : List Char)
    (h : (regLookup r k).isSome = true) :
    (regLookup (handleTurn r k2 f) k).isSome = true := by
  unfold handleTurn getOrCreate
  by_cases hk : (k == k2) = true
  · have hk2 : k = k2 := eq_of_beq hk
    subst hk2
    cases hl : regLookup r k
    · simp [hl, regLookup_regSet_self]
    · simp [hl, regLookup_regSet_self]
  · have hk2 : (k == k2) = false := by simpa using hk
    cases hl : regLookup r k2
    · simp [hl, regLookup_regSet_other _ _ _ _ hk2, h]
    · simp [hl, regLookup_regSet_other _ _ _ _ hk2, h]

/-- C7 (amended): the conversationState Map has no background sweep and no
eviction at all: a session present in the registry is still present after any
sequence of requests, no matter how much wall-clock time the sequence spans. -/
theorem no_eviction (tr : List (Nat × List Char × List Char)) :
    ∀ (r : Registry) (k : List Char), (regLookup r k).isSome = true →
      (regLookup (applyTimedOps r tr) k).isSome = true := by
  induction tr with
  | nil => intro r k h; exact h
  | cons op tr ih =>
    intro r k h
    exact ih _ k (handleTurn_keeps r k op.2.1 op.2.2 h)

/-- C7 counterexample: a session created at second 0 and then left untouched
while another request runs at second 7200 (past both the claimed 30 minute
sweep period and 1 hour max age) is still present in the registry, so no sweep
removed it. -/
theorem ttl_sweep_counterexample :
    regLookup (applyTimedOps (handleTurn [] (lit "stale") (lit "f0"))
        [(7200, lit "other", lit "f1")]) (lit "stale")
      = some { parent_id := none, nextChildFid := some (lit "f0") }
    ∧ 7200 > sessionMaxAgeSeconds ∧ sessionMaxAgeSeconds > sweepPeriodSeconds :=
  ⟨rfl, by decide, by decide⟩

theorem no_eviction_witness :
    ((regLookup (handleTurn [] (lit "stale") (lit "f0")) (lit "stale")).isSome = true)
    ∧ (regLookup (applyTimedOps (handleTurn [] (lit "stale") (lit "f0"))
        [(7200, lit "other", lit "f1")]) (lit "stale")).isSome = true :=
  ⟨rfl, no_eviction [(7200, lit "other", lit "f1")]
    (handleTurn [] (lit "stale") (lit "f0")) (lit "stale") rfl⟩

/-- C8 (amended): the 30 second timeout exists only on the non-streaming
DeepSeek path, where its expiry yields a bare HTTP 500 JSON error carrying
"Response timeout" (no chunk, no terminal sentinel); the streaming path has no
timeout: a stream whose upstream never sends the terminal event emits no
finish_reason "stop" chunk, no sentinel and no close, and so hangs. -/
theorem stream_timeout_behavior :
    dsNonStreamingResponse none
        = HttpResult.jsonError 500 (lit "Internal proxy error") (lit "Response timeout")
    ∧ isStreamResult (dsNonStreamingResponse none) = false
    ∧ ∀ evts : List DsEvt, (∀ e ∈ evts, isDataEvt e = true) →
        (runDs evts).countP isStopChunk = 0
        ∧ Out.done ∉ runDs evts ∧ Out.close ∉ runDs evts := by
  refine ⟨rfl, rfl, ?_⟩
  intro evts hd
  obtain ⟨_, ho⟩ := runDsFrom_dataOnly evts
    { responseStarted := false, closed := false } rfl hd
  unfold runDs
  refine ⟨?_, ?_, ?_⟩
  · rw [List.countP_eq_zero]
    intro a ha
    obtain ⟨r, v, hv, rfl⟩ := ho a ha
    simp [isStopChunk]
  · intro hmem
    obtain ⟨r, v, hv, h⟩ := ho _ hmem
    simp at h
  · intro hmem
    obtain ⟨r, v, hv, h⟩ := ho _ hmem
    simp at h

/-- C8 counterexample: when no terminal event arrives within the budget the
caller receives a bare HTTP 500 JSON transport error, not an error chunk with
finish_reason "stop" followed by the terminal sentinel. -/
theorem stream_timeout_counterexample :
    dsNonStreamingResponse none
      = HttpResult.jsonError 500 (lit "Internal proxy error") (lit "Response timeout")
    ∧ isStreamResult (dsNonStreamingResponse none) = false :=
  ⟨rfl, rfl⟩

theorem stream_timeout_witness :
    (∀ e ∈ [DsEvt.data (lit "data: \x7b\"v\":\"hey\"\x7d")], isDataEvt e = true)
    ∧ (runDs [DsEvt.data (lit "data: \x7b\"v\":\"hey\"\x7d")]).countP isStopChunk = 0 :=
  ⟨by decide,
   (stream_timeout_behavior.2.2 [DsEvt.data (lit "data: \x7b\"v\":\"hey\"\x7d")]
     (by decide)).1⟩

/-- C9 (amended): splitting the already-decoded text across two transport
chunks at any character position produces exactly the completed lines, decoded
events and final buffer of single delivery (the unterminated line is buffered
and reattached before re-splitting); and a raw byte split produces the same
decoded event sequence exactly when the independent per-chunk
Buffer.toString() decodes of the two pieces concatenate to the decode of the
whole, which holds for splits on UTF-8 character boundaries. -/
theorem frame_decoder_split_invariance :
    (∀ buf s1 s2 : List Char,
      (feedChunk buf (s1 ++ s2)).1
          = (feedChunk buf s1).1 ++ (feedChunk (feedChunk buf s1).2 s2).1
      ∧ (feedChunk buf (s1 ++ s2)).2 = (feedChunk (feedChunk buf s1).2 s2).2
      ∧ ((feedChunk buf (s1 ++ s2)).1).map decodeDataLine
          = ((feedChunk buf s1).1).map decodeDataLine
            ++ ((feedChunk (feedChunk buf s1).2 s2).1).map decodeDataLine)
    ∧ ∀ (buf : List Char) (b1 b2 : List Nat),
        utf8Decode (b1 ++ b2) = utf8Decode b1 ++ utf8Decode b2 →
        (byteFeed buf (b1 ++ b2)).1
            = (byteFeed buf b1).1 ++ (byteFeed (byteFeed buf b1).2 b2).1
        ∧ (byteFeed buf (b1 ++ b2)).2 = (byteFeed (byteFeed buf b1).2 b2).2
        ∧ ((byteFeed buf (b1 ++ b2)).1).map decodeDataLine
            = ((byteFeed buf b1).1).map decodeDataLine
              ++ ((byteFeed (byteFeed buf b1).2 b2).1).map decodeDataLine := by
  have base : ∀ buf s1 s2 : List Char,
      (feedChunk buf (s1 ++ s2)).1
          = (feedChunk buf s1).1 ++ (feedChunk (feedChunk buf s1).2 s2).1
      ∧ (feedChunk buf (s1 ++ s2)).2 = (feedChunk (feedChunk buf s1).2 s2).2
      ∧ ((feedChunk buf (s1 ++ s2)).1).map decodeDataLine
          = ((feedChunk buf s1).1).map decodeDataLine
            ++ ((feedChunk (feedChunk buf s1).2 s2).1).map decodeDataLine := by
    intro buf s1 s2
    have h := splitLines_append (buf ++ s1) s2
    unfold feedChunk
    rw [← List.append_assoc, h]
    exact ⟨rfl, rfl, by simp⟩
  refine ⟨base, ?_⟩
  intro buf b1 b2 h
  unfold byteFeed
  rw [h]
  exact base buf (utf8Decode b1) (utf8Decode b2)

/-- C9 counterexample: the two bytes 0xC3 0xA9, the UTF-8 encoding of one
character, decode to that character when delivered in one chunk but to two
U+FFFD replacement characters when split across two chunks, because each
Buffer is decoded by chunk.toString() independently; with the split placed
inside a data: line, the decoded line (and hence event) sequences of split and
single delivery differ. -/
theorem frame_decoder_byte_split_counterexample :
    utf8Decode ([0xC3] ++ [0xA9]) ≠ utf8Decode [0xC3] ++ utf8Decode [0xA9]
    ∧ (byteFeed [] ((litBytes "data: x" ++ [0xC3]) ++ ([0xA9] ++ litBytes "\n"))).1
        ≠ (byteFeed [] (litBytes "data: x" ++ [0xC3])).1
          ++ (byteFeed (byteFeed [] (litBytes "data: x" ++ [0xC3])).2
                ([0xA9] ++ litBytes "\n")).1 := by
  constructor
  · decide
  · decide

theorem frame_decoder_split_invariance_witness :
    (utf8Decode (litBytes "data: a" ++ litBytes "b\n")
        = utf8Decode (litBytes "data: a") ++ utf8Decode (litBytes "b\n"))
    ∧ (byteFeed [] (litBytes "data: a" ++ litBytes "b\n")).1
        = (byteFeed [] (litBytes "data: a")).1
          ++ (byteFeed (byteFeed [] (litBytes "data: a")).2 (litBytes "b\n")).1 :=
  ⟨by decide,
   (frame_decoder_split_invariance.2 [] (litBytes "data: a") (litBytes "b\n")
     (by decide)).1⟩

/-- C10 (amended): the handlers forward the content of the last message whose
role is "user", discarding all earlier messages, but only when that content is
present and nonempty; in every other case (messages not an array, no user
message, or a last user message whose content is missing or empty) the literal
"Hello" is forwarded. -/
theorem user_message_extraction :
    extractUserMessage none = lit "Hello"
    ∧ (∀ (pre : List ChatMsg) (c : List Char), ¬c.isEmpty = true →
        extractUserMessage (some (pre ++ [{ role := lit "user", content := some c }])) = c)
    ∧ (∀ ms : List ChatMsg, (∀ m ∈ ms, (m.role == lit "user") = false) →
        extractUserMessage (some ms) = lit "Hello")
    ∧ (∀ pre : List ChatMsg,
        extractUserMessage (some (pre
          ++ [{ role := lit "user", content := some [] }])) = lit "Hello")
    ∧ (∀ pre : List ChatMsg,
        extractUserMessage (some (pre
          ++ [{ role := lit "user", content := none }])) = lit "Hello") := by
  refine ⟨rfl, ?_, ?_, ?_, ?_⟩
  · intro pre c hc
    simp [extractUserMessage, List.reverse_append, List.find?_cons, hc]
  · intro ms hms
    have hfind : ms.reverse.find? (fun m => m.role == lit "user") = none := by
      rw [List.find?_eq_none]
      intro x hx
      simp [hms x (List.mem_reverse.mp hx)]
    simp [extractUserMessage, hfind]
  · intro pre
    simp [extractUserMessage, List.reverse_append, List.find?_cons]
  · intro pre
    simp [extractUserMessage, List.reverse_append, List.find?_cons]

/-- C10 counterexample: with messages [user "hi", user ""] the last user
element's content is the empty string, yet the handler forwards "Hello", even
though the array does contain a user message with nonempty content; so the
forwarded prompt is neither the last user element's content nor covered by the
claim's fallback condition. -/
theorem user_message_counterexample :
    extractUserMessage (some [{ role := lit "user", content := some (lit "hi") },
        { role := lit "user", content := some [] }]) = lit "Hello"
    ∧ lastUserContent [{ role := lit "user", content := some (lit "hi") },
        { role := lit "user", content := some [] }] = some []
    ∧ lit "Hello" ≠ ([] : List Char)
    ∧ ([{ role := lit "user", content := some (lit "hi") },
        { role := lit "user", content := some [] }] : List ChatMsg).filter
          (fun m => m.role == lit "user" && !(m.content.getD []).isEmpty) ≠ [] :=
  ⟨rfl, rfl, by decide, by decide⟩

theorem user_message_extraction_witness :
    (¬(lit "hi").isEmpty = true)
    ∧ extractUserMessage (some ([{ role := lit "system", content := some (lit "s") }]
        ++ [{ role := lit "user", content := some (lit "hi") }])) = lit "hi"
    ∧ (∀ m ∈ [({ role := lit "assistant", content := some (lit "x") } : ChatMsg)],
        (m.role == lit "user") = false)
    ∧ extractUserMessage (some [{ role := lit "assistant", content := some (lit "x") }])
        = lit "Hello" :=
  ⟨by decide,
   user_message_extraction.2.1 [{ role := lit "system", content := some (lit "s") }]
     (lit "hi") (by decide),
   by decide,
   user_message_extraction.2.2.1 [{ role := lit "assistant", content := some (lit "x") }]
     (by decide)⟩
